import Mathlib

/-!
Shallow embedding of `src/app/dashboard/meetings/page.tsx`.

TypeScript optional fields (`field?: T`, value `T | undefined`) are embedded
as `Option`; the nullish-coalescing operator `??` is `Option.orElse`
(it falls through only on `null`/`undefined`, never on `0` or `""`);
JavaScript truthiness tests (`!x`, `x || y`) are modelled explicitly, so
`0` and `""` count as falsy. Thrown errors become `Except String`.
-/

namespace Meetings

/-- An element of `When.times`: `{ start_time: number; end_time: number }`. -/
structure TimeSlot where
  start_time : Int
  end_time : Int
deriving DecidableEq, Repr

/-- The `When` interface: every variant the vendor may return for the
logical "when" field of an event. All fields optional. -/
structure When where
  start_time : Option Int := none
  end_time : Option Int := none
  start : Option Int := none
  «end» : Option Int := none
  time : Option Int := none
  times : Option (List TimeSlot) := none
  date : Option String := none
  dates : Option (List String) := none
deriving DecidableEq, Repr

/-- The shape of `Conferencing.details`: `{ url?: string }`. -/
structure ConfDetails where
  url : Option String := none
deriving DecidableEq, Repr

/-- The `Conferencing` interface. -/
structure Conferencing where
  details : Option ConfDetails := none
  url : Option String := none
deriving DecidableEq, Repr

/-- A participant of a normalized `NylasEvent`: `{ name: string }`. -/
structure Participant where
  name : String
deriving DecidableEq, Repr

/-- The normalized `NylasEvent` interface. -/
structure NylasEvent where
  id : String
  «when» : When
  title : String
  participants : List Participant
  conferencing : Option Conferencing := none
deriving DecidableEq, Repr

/-- The function `getStartTime`:
`when.start_time ?? when.start ?? when.time ?? when.times?.[0]?.start_time ?? null`. -/
def getStartTime (w : When) : Option Int :=
  (((w.start_time.orElse fun _ => w.start).orElse fun _ => w.time).orElse
    fun _ => (w.times.bind List.head?).map TimeSlot.start_time)

/-- The function `getEndTime`:
`when.end_time ?? when.end ?? when.times?.[0]?.end_time ?? null`. -/
def getEndTime (w : When) : Option Int :=
  ((w.end_time.orElse fun _ => w.«end»).orElse
    fun _ => (w.times.bind List.head?).map TimeSlot.end_time)

/-- The function `getMeetingUrl`:
`conferencing?.details?.url ?? conferencing?.url ?? null`. -/
def getMeetingUrl (conferencing : Option Conferencing) : Option String :=
  ((conferencing.bind Conferencing.details).bind ConfDetails.url).orElse
    fun _ => conferencing.bind Conferencing.url

/-- A participant as the vendor returns it: `{ name?: string }`. -/
structure RawParticipant where
  name : Option String := none
deriving DecidableEq, Repr

/-- A vendor event before normalization: `title` and `participants` may be
absent (`event.title ?? ""`, `event.participants?.map(...) ?? []`). -/
structure RawEvent where
  id : String
  «when» : When
  title : Option String := none
  participants : Option (List RawParticipant) := none
  conferencing : Option Conferencing := none
deriving DecidableEq, Repr

/-- The per-event normalization in the `response.data.map` of `getData`:
spread of the event with `title` and `participants` defaulted. -/
def normalizeEvent (event : RawEvent) : NylasEvent :=
  { id := event.id
    «when» := event.«when»
    title := event.title.getD ""
    participants :=
      (event.participants.map (List.map fun p => ⟨p.name.getD ""⟩)).getD []
    conferencing := event.conferencing }

/-- The fields `getData` selects from the Prisma user row:
`grantId` and `grantEmail`, both nullable. -/
structure UserRecord where
  grantId : Option String := none
  grantEmail : Option String := none
deriving DecidableEq, Repr

/-- JavaScript falsiness of a nullable string: `!x` is true for
`null`/`undefined` and for the empty string. -/
def strFalsy : Option String → Bool
  | none => true
  | some s => s = ""

/-- The function `getData`, with its two awaited effects made explicit arguments:
`userData` is the result of the Prisma lookup, `apiEvents` the vendor
response's `data`. A `throw` becomes `Except.error`. -/
def getData (userData : Option UserRecord) (apiEvents : List RawEvent) :
    Except String (List NylasEvent) :=
  match userData with
  | none => Except.error "User not found"
  | some u =>
    if strFalsy u.grantId then Except.error "User grantId not found"
    else if strFalsy u.grantEmail then Except.error "User grantEmail not found"
    else Except.ok (apiEvents.map normalizeEvent)

/-- JavaScript truthiness of a nullable number: `!x` is true for
`null`/`undefined` and for `0`. -/
def numTruthy : Option Int → Bool
  | none => false
  | some n => n ≠ 0

/-- What one rendered booking row carries: the hidden `eventId` of its
cancel form, the two timestamps, the optional Join Meeting link, the
title and the displayed participant name. -/
structure RenderedEntry where
  formEventId : String
  startTime : Int
  endTime : Int
  meetingUrl : Option String := none
  title : String
  participantName : String
deriving DecidableEq, Repr

/-- The body of `data.map((item) => ...)` in `MeetingsPage`: extract the
times and url, return `null` (`none`) unless both times are truthy,
otherwise the rendered row. `item.participants[0]?.name || "participant"`
falls back on an absent first participant and on an empty name. -/
def renderEvent (item : NylasEvent) : Option RenderedEntry :=
  let startTime := getStartTime item.«when»
  let endTime := getEndTime item.«when»
  let meetingUrl := getMeetingUrl item.conferencing
  if !numTruthy startTime || !numTruthy endTime then none
  else some
    { formEventId := item.id
      startTime := startTime.getD 0
      endTime := endTime.getD 0
      meetingUrl := meetingUrl
      title := item.title
      participantName :=
        match item.participants.head? with
        | some p => if p.name = "" then "participant" else p.name
        | none => "participant" }

/-- The list of rows `MeetingsPage` actually renders (`null` results of
the map render nothing). -/
def renderedEntries (data : List NylasEvent) : List RenderedEntry :=
  data.filterMap renderEvent

/-- The composition `MeetingsPage` performs after `getData`: fetch, then render each event. -/
def meetingsPage (userData : Option UserRecord) (apiEvents : List RawEvent) :
    Except String (List RenderedEntry) :=
  (getData userData apiEvents).map renderedEntries

/-- Modelled from the spec: what it means for a booking row to be
"upcoming (not past)" at the current Unix time `now` — the meeting has
not yet ended. The page itself never consults the current time. -/
def isUpcoming (now : Int) (e : RenderedEntry) : Bool :=
  now ≤ e.endTime

/-- A payload carrying only the date-only shape: `date`/`dates` set,
no numeric time field at all. -/
def dateOnlyWhen : When :=
  { date := some "2024-06-01", dates := some ["2024-06-01", "2024-06-02"] }

end Meetings

namespace Meetings

/-- C1: `getStartTime` returns the first present value in the order
`start_time`, `start`, `time`, `times[0].start_time`, and `null` when
none of these is present. -/
theorem getStartTime_precedence (w : When) :
    (∀ v, w.start_time = some v → getStartTime w = some v) ∧
    (w.start_time = none → ∀ v, w.start = some v → getStartTime w = some v) ∧
    (w.start_time = none → w.start = none → ∀ v, w.time = some v →
      getStartTime w = some v) ∧
    (w.start_time = none → w.start = none → w.time = none →
      ∀ t ts, w.times = some (t :: ts) → getStartTime w = some t.start_time) ∧
    (w.start_time = none → w.start = none → w.time = none →
      (w.times = none ∨ w.times = some []) → getStartTime w = none) := by
  refine ⟨?_, ?_, ?_, ?_, ?_⟩
  · intro v h
    simp [getStartTime, h, Option.orElse]
  · intro h1 v h
    simp [getStartTime, h1, h, Option.orElse]
  · intro h1 h2 v h
    simp [getStartTime, h1, h2, h, Option.orElse]
  · intro h1 h2 h3 t ts h
    simp [getStartTime, h1, h2, h3, h, Option.orElse]
  · intro h1 h2 h3 h
    rcases h with h | h <;> simp [getStartTime, h1, h2, h3, h, Option.orElse]

/-- Witness for C1: each branch of the precedence at a concrete payload. -/
theorem getStartTime_precedence_witness :
    getStartTime { start_time := some 7, start := some 8 } = some 7 ∧
    getStartTime { time := some 9 } = some 9 ∧
    getStartTime { times := some [⟨3, 4⟩] } = some 3 := by
  refine ⟨?_, ?_, ?_⟩
  · exact (getStartTime_precedence { start_time := some 7, start := some 8 }).1 7 rfl
  · exact (getStartTime_precedence { time := some 9 }).2.2.1 rfl rfl 9 rfl
  · exact (getStartTime_precedence { times := some [⟨3, 4⟩] }).2.2.2.1
      rfl rfl rfl ⟨3, 4⟩ [] rfl

/-- C2: `getEndTime` returns the first present value in the order
`end_time`, `end`, `times[0].end_time`, and `null` when none is present;
the single `time` field is never consulted. -/
theorem getEndTime_precedence (w : When) :
    (∀ v, w.end_time = some v → getEndTime w = some v) ∧
    (w.end_time = none → ∀ v, w.«end» = some v → getEndTime w = some v) ∧
    (w.end_time = none → w.«end» = none →
      ∀ t ts, w.times = some (t :: ts) → getEndTime w = some t.end_time) ∧
    (w.end_time = none → w.«end» = none →
      (w.times = none ∨ w.times = some []) → getEndTime w = none) := by
  refine ⟨?_, ?_, ?_, ?_⟩
  · intro v h
    simp [getEndTime, h, Option.orElse]
  · intro h1 v h
    simp [getEndTime, h1, h, Option.orElse]
  · intro h1 h2 t ts h
    simp [getEndTime, h1, h2, h, Option.orElse]
  · intro h1 h2 h
    rcases h with h | h <;> simp [getEndTime, h1, h2, h, Option.orElse]

/-- Witness for C2: the last branch at a payload whose `time` field is
set, showing `time` is indeed no fallback for the end. -/
theorem getEndTime_precedence_witness :
    getEndTime { time := some 42 } = none :=
  (getEndTime_precedence { time := some 42 }).2.2.2 rfl rfl (Or.inl rfl)

/-- C3 counterexample: on a payload carrying only the date-only shape
(`date` and `dates` set, no numeric time fields) the extraction yields
`null` for both the start and the end, not a non-null result. -/
theorem dateOnly_yields_null :
    getStartTime dateOnlyWhen = none ∧ getEndTime dateOnlyWhen = none := by
  constructor <;> rfl

/-- C3 amended: the extraction reconciles the numeric shapes — single
time, time range, and list of time ranges — into a start/end, but for a
payload carrying only the date-only shape it yields `null` on both ends
(the `date` and `dates` fields never contribute). -/
theorem when_shapes_reconciled (w : When) :
    (∀ v, w.start_time = none → w.start = none → w.time = some v →
      getStartTime w = some v) ∧
    (∀ a b, w.start_time = some a → w.end_time = some b →
      getStartTime w = some a ∧ getEndTime w = some b) ∧
    (∀ t ts, w.start_time = none → w.start = none → w.time = none →
      w.end_time = none → w.«end» = none → w.times = some (t :: ts) →
      getStartTime w = some t.start_time ∧ getEndTime w = some t.end_time) ∧
    (w.start_time = none → w.start = none → w.time = none →
      w.end_time = none → w.«end» = none →
      (w.times = none ∨ w.times = some []) →
      getStartTime w = none ∧ getEndTime w = none) := by
  refine ⟨?_, ?_, ?_, ?_⟩
  · intro v h1 h2 h3
    simp [getStartTime, h1, h2, h3, Option.orElse]
  · intro a b h1 h2
    constructor <;> simp [getStartTime, getEndTime, h1, h2, Option.orElse]
  · intro t ts h1 h2 h3 h4 h5 h6
    constructor <;>
      simp [getStartTime, getEndTime, h1, h2, h3, h4, h5, h6, Option.orElse]
  · intro h1 h2 h3 h4 h5 h6
    rcases h6 with h6 | h6 <;> constructor <;>
      simp [getStartTime, getEndTime, h1, h2, h3, h4, h5, h6, Option.orElse]

/-- Witness for the amended C3: the date-only payload comes out null on
both ends; a list-of-ranges payload comes out with that range. -/
theorem when_shapes_reconciled_witness :
    (getStartTime dateOnlyWhen = none ∧ getEndTime dateOnlyWhen = none) ∧
    (getStartTime { times := some [⟨5, 6⟩] } = some 5 ∧
      getEndTime { times := some [⟨5, 6⟩] } = some 6) := by
  constructor
  · exact (when_shapes_reconciled dateOnlyWhen).2.2.2 rfl rfl rfl rfl rfl
      (Or.inl rfl)
  · exact (when_shapes_reconciled { times := some [⟨5, 6⟩] }).2.2.1
      ⟨5, 6⟩ [] rfl rfl rfl rfl rfl rfl

/-- C4: the extraction helpers are total and null-safe — on every input,
each of the three returns either `null` or a value, and on the degenerate
inputs (no fields at all, an empty `times` list, an absent conferencing
object) they return `null` rather than failing. -/
theorem extraction_total_null_safe :
    (∀ w : When, getStartTime w = none ∨ ∃ n, getStartTime w = some n) ∧
    (∀ w : When, getEndTime w = none ∨ ∃ n, getEndTime w = some n) ∧
    (∀ c : Option Conferencing,
      getMeetingUrl c = none ∨ ∃ s, getMeetingUrl c = some s) ∧
    getStartTime {} = none ∧ getEndTime {} = none ∧
    getStartTime { times := some [] } = none ∧
    getEndTime { times := some [] } = none ∧
    getMeetingUrl none = none := by
  refine ⟨?_, ?_, ?_, rfl, rfl, rfl, rfl, rfl⟩
  · intro w
    cases h : getStartTime w
    · exact Or.inl rfl
    · exact Or.inr ⟨_, rfl⟩
  · intro w
    cases h : getEndTime w
    · exact Or.inl rfl
    · exact Or.inr ⟨_, rfl⟩
  · intro c
    cases h : getMeetingUrl c
    · exact Or.inl rfl
    · exact Or.inr ⟨_, rfl⟩

/-- C5: `getMeetingUrl` returns the chained `details.url` lookup when it
is present, otherwise the top-level `url` when present, otherwise `null`;
an absent conferencing argument gives `null`. -/
theorem getMeetingUrl_precedence :
    (∀ (c : Conferencing) u, c.details.bind ConfDetails.url = some u →
      getMeetingUrl (some c) = some u) ∧
    (∀ (c : Conferencing) u, c.details.bind ConfDetails.url = none →
      c.url = some u → getMeetingUrl (some c) = some u) ∧
    (∀ c : Conferencing, c.details.bind ConfDetails.url = none →
      c.url = none → getMeetingUrl (some c) = none) ∧
    getMeetingUrl none = none := by
  refine ⟨?_, ?_, ?_, rfl⟩
  · intro c u h
    simp [getMeetingUrl, h, Option.orElse]
  · intro c u h1 h2
    simp [getMeetingUrl, h1, h2, Option.orElse]
  · intro c h1 h2
    simp [getMeetingUrl, h1, h2, Option.orElse]

/-- Witness for C5: the three precedence branches at concrete payloads. -/
theorem getMeetingUrl_precedence_witness :
    getMeetingUrl (some ⟨some ⟨some "a"⟩, some "b"⟩) = some "a" ∧
    getMeetingUrl (some ⟨some ⟨none⟩, some "b"⟩) = some "b" ∧
    getMeetingUrl (some ⟨none, none⟩) = none := by
  refine ⟨?_, ?_, ?_⟩
  · exact getMeetingUrl_precedence.1 _ "a" rfl
  · exact getMeetingUrl_precedence.2.1 _ "b" rfl rfl
  · exact getMeetingUrl_precedence.2.2.1 _ rfl rfl

/-- JavaScript truthiness of a nullable number, spelled out: truthy means
neither `null` nor `0`. -/
theorem numTruthy_iff (o : Option Int) :
    numTruthy o = true ↔ o ≠ none ∧ o ≠ some 0 := by
  cases o with
  | none => simp [numTruthy]
  | some n => simp [numTruthy]

/-- A rendered row exists exactly when both truthiness tests pass. -/
theorem renderEvent_isSome (item : NylasEvent) :
    (renderEvent item).isSome =
      (numTruthy (getStartTime item.«when») &&
        numTruthy (getEndTime item.«when»)) := by
  simp only [renderEvent]
  by_cases h1 : numTruthy (getStartTime item.«when») <;>
    by_cases h2 : numTruthy (getEndTime item.«when») <;>
      simp [h1, h2]

/-- C7: an event is rendered iff both its extracted start and end times
are truthy — an event whose extracted start or end is `null` or the
number `0` contributes nothing to the rendered list, wherever it sits. -/
theorem rendered_iff_truthy (item : NylasEvent) :
    ((renderEvent item).isSome = true ↔
      (getStartTime item.«when» ≠ none ∧ getStartTime item.«when» ≠ some 0 ∧
       getEndTime item.«when» ≠ none ∧ getEndTime item.«when» ≠ some 0)) ∧
    (∀ pre post : List NylasEvent,
      renderedEntries (pre ++ item :: post) =
        renderedEntries pre ++ (renderEvent item).toList ++
          renderedEntries post) := by
  constructor
  · rw [renderEvent_isSome, Bool.and_eq_true, numTruthy_iff, numTruthy_iff]
    tauto
  · intro pre post
    simp only [renderedEntries, List.filterMap_append, List.filterMap_cons]
    cases h : renderEvent item <;> simp [h]

/-- Inversion for `getData`: a successful fetch returns exactly the
normalized vendor events. -/
theorem getData_ok_inv (userData : Option UserRecord) (raw : List RawEvent)
    (res : List NylasEvent) (h : getData userData raw = Except.ok res) :
    res = raw.map normalizeEvent := by
  cases userData with
  | none => exact Except.noConfusion h
  | some u =>
    simp only [getData] at h
    split at h
    · exact Except.noConfusion h
    · split at h
      · exact Except.noConfusion h
      · exact (Except.ok.inj h).symm

/-- The hidden `eventId` field of a rendered cancel form is the id of the
event the row was rendered from. -/
theorem renderEvent_formEventId (item : NylasEvent) (e : RenderedEntry)
    (h : renderEvent item = some e) : e.formEventId = item.id := by
  simp only [renderEvent] at h
  split at h
  · exact Option.noConfusion h
  · cases Option.some.inj h
    rfl

/-- An event entirely in the past: it ended at Unix time 200. -/
def pastEvent : NylasEvent :=
  { id := "evt_past"
    «when» := { start_time := some 100, end_time := some 200 }
    title := "Old meeting"
    participants := [⟨"Ana"⟩] }

/-- The vendor-shaped payload for `pastEvent`. -/
def pastRaw : RawEvent :=
  { id := "evt_past"
    «when» := { start_time := some 100, end_time := some 200 }
    title := some "Old meeting"
    participants := some [⟨some "Ana"⟩] }

/-- The row the page renders for `pastEvent`. -/
def pastEntry : RenderedEntry :=
  { formEventId := "evt_past"
    startTime := 100
    endTime := 200
    meetingUrl := none
    title := "Old meeting"
    participantName := "Ana" }

/-- C6 counterexample: at current time 1000 the event that ended at 200 is
past, yet the page still renders it, cancel form and all — the rendering
does not restrict itself to upcoming events (its own card description
says "upcoming and past events"). -/
theorem past_event_still_rendered :
    meetingsPage (some ⟨some "g", some "e"⟩) [pastRaw] =
      Except.ok [pastEntry] ∧
    isUpcoming 1000 pastEntry = false := by
  constructor <;> rfl

/-- C6 amended: the page fetches the user's calendar events and renders a
list of bookings — upcoming and past alike, an event being rendered iff
its extracted start and end are truthy — and every rendered entry carries
a cancel form bound to the id of the event it was rendered from. -/
theorem meetingsPage_cancel_binding (userData : Option UserRecord)
    (raw : List RawEvent) (entries : List RenderedEntry)
    (h : meetingsPage userData raw = Except.ok entries) :
    ∀ e ∈ entries, ∃ item ∈ raw.map normalizeEvent,
      renderEvent item = some e ∧ e.formEventId = item.id := by
  intro e he
  have hres : ∃ res, getData userData raw = Except.ok res ∧
      entries = renderedEntries res := by
    cases hg : getData userData raw with
    | error s =>
      rw [meetingsPage, hg] at h
      exact Except.noConfusion h
    | ok res =>
      rw [meetingsPage, hg] at h
      exact ⟨res, rfl, (Except.ok.inj h).symm⟩
  rcases hres with ⟨res, hok, hentries⟩
  rcases List.mem_filterMap.mp (hentries ▸ he) with ⟨item, hmem, hrender⟩
  refine ⟨item, ?_, hrender, renderEvent_formEventId item e hrender⟩
  rw [← getData_ok_inv userData raw res hok]
  exact hmem

/-- Witness for the amended C6: the concrete past event's row is bound to
its event id. -/
theorem meetingsPage_cancel_binding_witness :
    ∃ item ∈ [pastRaw].map normalizeEvent,
      renderEvent item = some pastEntry ∧
        pastEntry.formEventId = item.id :=
  meetingsPage_cancel_binding (some ⟨some "g", some "e"⟩) [pastRaw]
    [pastEntry] rfl pastEntry (List.Mem.head _)

/-- C8: `getData` throws exactly when the user lookup comes back empty,
without a usable `grantId`, or without a usable `grantEmail`, with the
three messages in order of the checks; whenever it throws, the result
does not depend on the vendor response at all — the events API was never
consulted. -/
theorem getData_error_spec :
    (∀ events, getData none events = Except.error "User not found") ∧
    (∀ u events, strFalsy u.grantId = true →
      getData (some u) events = Except.error "User grantId not found") ∧
    (∀ u events, strFalsy u.grantId = false → strFalsy u.grantEmail = true →
      getData (some u) events = Except.error "User grantEmail not found") ∧
    (∀ u events, strFalsy u.grantId = false → strFalsy u.grantEmail = false →
      getData (some u) events = Except.ok (events.map normalizeEvent)) ∧
    (∀ userData events1 events2 s,
      getData userData events1 = Except.error s →
      getData userData events2 = Except.error s) := by
  refine ⟨fun events => rfl, ?_, ?_, ?_, ?_⟩
  · intro u events h
    simp [getData, h]
  · intro u events h1 h2
    simp [getData, h1, h2]
  · intro u events h1 h2
    simp [getData, h1, h2]
  · intro userData events1 events2 s h
    cases userData with
    | none => exact h
    | some u =>
      by_cases h1 : strFalsy u.grantId
      · simp [getData, h1] at h ⊢
        exact h
      · by_cases h2 : strFalsy u.grantEmail
        · simp [getData, h1, h2] at h ⊢
          exact h
        · simp [getData, h1, h2] at h

/-- Witness for C8: the three error cases and the success case at
concrete user rows, plus error-independence from the vendor response. -/
theorem getData_error_spec_witness :
    getData (some ⟨none, some "e"⟩) [pastRaw] =
      Except.error "User grantId not found" ∧
    getData (some ⟨some "g", none⟩) [pastRaw] =
      Except.error "User grantEmail not found" ∧
    getData (some ⟨some "g", some "e"⟩) [] = Except.ok [] ∧
    getData none [pastRaw] = Except.error "User not found" := by
  refine ⟨?_, ?_, ?_, ?_⟩
  · exact getData_error_spec.2.1 ⟨none, some "e"⟩ [pastRaw] rfl
  · exact getData_error_spec.2.2.1 ⟨some "g", none⟩ [pastRaw] rfl rfl
  · exact getData_error_spec.2.2.2.1 ⟨some "g", some "e"⟩ [] rfl rfl
  · exact getData_error_spec.2.2.2.2 none [] [pastRaw] "User not found" rfl

/-- Pointwise shape of the participant normalization. -/
theorem participants_zip_normalized (ps : List RawParticipant) :
    ∀ pq ∈ ps.zip (ps.map fun p => (⟨p.name.getD ""⟩ : Participant)),
      pq.2.name = pq.1.name.getD "" := by
  induction ps with
  | nil =>
    intro pq h
    cases h
  | cons p rest ih =>
    intro pq h
    rcases List.mem_cons.mp h with h | h
    · subst h
      rfl
    · exact ih pq h

/-- C9: normalization gives every event a string title (absent becomes
empty) and an array of participants (absent becomes empty, each name
defaulting to the empty string), leaves the other fields untouched, and
every successful `getData` result is exactly the normalized vendor
list. -/
theorem normalizeEvent_spec (e : RawEvent) :
    ((normalizeEvent e).id = e.id ∧ (normalizeEvent e).«when» = e.«when» ∧
      (normalizeEvent e).conferencing = e.conferencing) ∧
    (e.title = none → (normalizeEvent e).title = "") ∧
    (∀ t, e.title = some t → (normalizeEvent e).title = t) ∧
    (e.participants = none → (normalizeEvent e).participants = []) ∧
    (∀ ps, e.participants = some ps →
      (normalizeEvent e).participants.length = ps.length ∧
      ∀ pq ∈ ps.zip (normalizeEvent e).participants,
        (pq.1.name = none → pq.2.name = "") ∧
        (∀ n, pq.1.name = some n → pq.2.name = n)) ∧
    (∀ userData raw res, getData userData raw = Except.ok res →
      res = raw.map normalizeEvent) := by
  refine ⟨⟨rfl, rfl, rfl⟩, ?_, ?_, ?_, ?_, getData_ok_inv⟩
  · intro h
    simp [normalizeEvent, h]
  · intro t h
    simp [normalizeEvent, h]
  · intro h
    simp [normalizeEvent, h]
  · intro ps h
    have hps : (normalizeEvent e).participants =
        ps.map fun p => (⟨p.name.getD ""⟩ : Participant) := by
      simp [normalizeEvent, h]
    constructor
    · rw [hps, List.length_map]
    · intro pq hpq
      have := participants_zip_normalized ps pq (hps ▸ hpq)
      constructor
      · intro hn
        rw [this, hn]
        rfl
      · intro n hn
        rw [this, hn]
        rfl

/-- Witness for C9: a vendor event with no title, a participant without a
name and one named, normalized at a concrete input. -/
theorem normalizeEvent_spec_witness :
    (normalizeEvent ⟨"e1", {}, none, some [⟨none⟩, ⟨some "Bo"⟩], none⟩).title
        = "" ∧
    (normalizeEvent
        ⟨"e1", {}, none, some [⟨none⟩, ⟨some "Bo"⟩], none⟩).participants.length
        = ([⟨none⟩, ⟨some "Bo"⟩] : List RawParticipant).length :=
  ⟨(normalizeEvent_spec ⟨"e1", {}, none, some [⟨none⟩, ⟨some "Bo"⟩], none⟩).2.1
      rfl,
    ((normalizeEvent_spec
        ⟨"e1", {}, none, some [⟨none⟩, ⟨some "Bo"⟩], none⟩).2.2.2.2.1
      [⟨none⟩, ⟨some "Bo"⟩] rfl).1⟩

end Meetings
